import Mathlib

/-!
Shallow embedding of `scripts/download_rss.py` (letterboxd-viewer).

Strings are modelled as `List Char` (Python `str`); the Python string
primitives used by the script (`replace`, `strip`, `lower`, `split`,
`rstrip`, the two `re.sub` calls, `re.search(r'src="([^"]+)"', ...)` and
the `in` substring operator) are given faithful executable definitions.
Character classification (`isalnum`, `lower`, `isdigit`, `\d`) is modelled
on the ASCII range plus U+00BD `½`, which Python's `str.isalnum` counts as
alphanumeric (it is a numeric character); these are all the code points the
script's behaviour hinges on.

External collaborators (the HTTP client, BeautifulSoup, PIL, the XML
parser/serializer) are modelled as oracle parameters in `Env`, following
the specification's scope note that these are assumed-provided components;
per-item elements carry the byte serialization `ET.tostring` would produce
as an opaque field.
-/

/-- Boolean contiguous-substring test on character lists; models Python's
`in` operator for strings (`pat in s`). -/
def listContains (pat : List Char) : List Char → Bool
  | [] => pat.isPrefixOf []
  | c :: cs => pat.isPrefixOf (c :: cs) || listContains pat cs

/-- String-level wrapper of `listContains`. -/
def strContains (pat s : String) : Bool := listContains pat.data s.data

/-- Fuelled model of Python `str.replace(pat, rep)`: leftmost,
non-overlapping, single pass.  The fuel only drives the recursion; it is
always instantiated with the length of the list, which suffices. -/
def replFuel (pat rep : List Char) : Nat → List Char → List Char
  | 0, l => l
  | _ + 1, [] => []
  | n + 1, c :: cs =>
    if pat.isPrefixOf (c :: cs) then rep ++ replFuel pat rep n ((c :: cs).drop pat.length)
    else c :: replFuel pat rep n cs

/-- Python `l.replace(pat, rep)` on character lists. -/
def pyReplace (pat rep l : List Char) : List Char := replFuel pat rep l.length l

/-- Whitespace class of Python `str.strip()` (ASCII part). -/
def pyIsSpace (c : Char) : Bool :=
  c == ' ' || c == '\t' || c == '\n' || c == '\x0d' || c == '\x0b' || c == '\x0c'

/-- Python `str.strip()`: trim whitespace from both ends. -/
def pyStrip (l : List Char) : List Char :=
  ((l.dropWhile pyIsSpace).reverse.dropWhile pyIsSpace).reverse

/-- The ASCII lowercase table of Python `str.lower` (non-ASCII code points
other than those in this table are left unchanged by the model; the only
non-ASCII character the script's logic depends on, `½`, is indeed fixed by
Python's `lower`). -/
def lowerPairs : List (Char × Char) :=
  [('A', 'a'), ('B', 'b'), ('C', 'c'), ('D', 'd'), ('E', 'e'), ('F', 'f'), ('G', 'g'),
   ('H', 'h'), ('I', 'i'), ('J', 'j'), ('K', 'k'), ('L', 'l'), ('M', 'm'), ('N', 'n'),
   ('O', 'o'), ('P', 'p'), ('Q', 'q'), ('R', 'r'), ('S', 's'), ('T', 't'), ('U', 'u'),
   ('V', 'v'), ('W', 'w'), ('X', 'x'), ('Y', 'y'), ('Z', 'z')]

/-- Python `str.lower` on a single character (ASCII table). -/
def pyLower (c : Char) : Char :=
  match lowerPairs.find? (fun p => p.1 == c) with
  | some p => p.2
  | none => c

/-- Python `str.isalnum` on a single character, modelled on ASCII
alphanumerics plus `½` (U+00BD), which Python counts as numeric and hence
alphanumeric — this is why the `isalnum()`-based filter in
`sanitize_filename` does NOT remove the rating glyph. -/
def pyIsAlnum (c : Char) : Bool := c.isAlphanum || c == '½'

/-- Character filter of `sanitize_filename`: keep alphanumerics and `-`. -/
def keepChar (c : Char) : Bool := pyIsAlnum c || c == '-'

/-- Double hyphen pattern of the collapsing `while` loop. -/
def ddPat : List Char := ['-', '-']

/-- Fuelled model of the `while '--' in sanitized:` loop of
`sanitize_filename`; each iteration is one full `str.replace('--', '-')`
pass.  Fuel `l.length` suffices because every productive pass strictly
shrinks the list. -/
def collapseFuel : Nat → List Char → List Char
  | 0, l => l
  | n + 1, l => if listContains ddPat l then collapseFuel n (pyReplace ddPat ['-'] l) else l

/-- The hyphen-collapsing loop at its canonical fuel. -/
def collapseHyphens (l : List Char) : List Char := collapseFuel l.length l

/-- Python `str.strip('-')`. -/
def stripHyphens (l : List Char) : List Char :=
  ((l.dropWhile (fun c => c == '-')).reverse.dropWhile (fun c => c == '-')).reverse

/-- Python `str.rstrip('-')`. -/
def rstripHyphens (l : List Char) : List Char :=
  (l.reverse.dropWhile (fun c => c == '-')).reverse

/-- Embedding of `sanitize_filename` (lines 53-71): spoiler-marker removal
with trims, lowercase, spaces to hyphens, alphanumeric-or-hyphen filter,
hyphen-run collapsing, hyphen trim, and finally `½` removal — in exactly
the source's order (the `½` replace is the LAST step). -/
def sanitizeL (l : List Char) : List Char :=
  pyReplace ['½'] []
    (stripHyphens
      (collapseHyphens
        (List.filter keepChar
          (pyReplace [' '] ['-']
            (List.map pyLower
              (pyStrip (pyReplace "contains spoilers".data []
                (pyStrip (pyReplace "(contains spoilers)".data [] l)))))))))

/-- String-level `sanitize_filename`. -/
def sanitize_filename (s : String) : String := String.mk (sanitizeL s.data)

/-- Head of the list is not a hyphen (vacuously true for the empty list). -/
def headNotHyphen : List Char → Bool
  | [] => true
  | c :: _ => !(c == '-')

/-- Invariant satisfied by every `sanitizeL` output on a `½`-free input:
every character is a kept, lowercase-fixed, non-`½` character; there is no
double hyphen; and neither end is a hyphen.  Any list satisfying it is a
fixed point of `sanitizeL`. -/
def isCleanName (l : List Char) : Bool :=
  l.all (fun c => keepChar c && (pyLower c == c) && !(c == '½')) &&
    !(listContains ddPat l) && headNotHyphen l && headNotHyphen l.reverse

/-- Literal segment `-0-` shared by both poster-size regexes. -/
def seg0 : List Char := ['-', '0', '-']

/-- Literal optional suffix `-crop` of the first poster-size regex. -/
def cropTag : List Char := ['-', 'c', 'r', 'o', 'p']

/-- Replacement string of the first `re.sub` (`-0-2000-0-3000-crop`). -/
def repl1 : List Char := "-0-2000-0-3000-crop".data

/-- Replacement string of the second `re.sub` (`-0-2000-`). -/
def repl2 : List Char := "-0-2000-".data

/-- Match attempt of `-0-\d+-0-\d+(-crop)?` anchored at the head of the
list; returns the remainder after the match.  Greedy `\d+` is maximal
munch, which coincides with Python's backtracking here because the
character after each digit run must be the literal `-`. -/
def tryMatch1 (l : List Char) : Option (List Char) :=
  if seg0.isPrefixOf l then
    let r1 := l.drop 3
    let d1 := r1.takeWhile Char.isDigit
    let r2 := r1.dropWhile Char.isDigit
    if d1 ≠ [] ∧ seg0.isPrefixOf r2 then
      let r3 := r2.drop 3
      let d2 := r3.takeWhile Char.isDigit
      let r4 := r3.dropWhile Char.isDigit
      if d2 ≠ [] then some (if cropTag.isPrefixOf r4 then r4.drop 5 else r4)
      else none
    else none
  else none

/-- Match attempt of `-0-\d+-` anchored at the head of the list; returns
the remainder after the match (the trailing `-` is consumed). -/
def tryMatch2 (l : List Char) : Option (List Char) :=
  if seg0.isPrefixOf l then
    let rest := l.drop 3
    let ds := rest.takeWhile Char.isDigit
    let r2 := rest.dropWhile Char.isDigit
    if ds ≠ [] then
      match r2 with
      | c :: r3 => if c = '-' then some r3 else none
      | [] => none
    else none
  else none

/-- Fuelled scanner of `re.sub(r'-0-\d+-0-\d+(-crop)?', '-0-2000-0-3000-crop', url)`:
leftmost match, replace, continue after the match. -/
def sub1Fuel : Nat → List Char → List Char
  | 0, l => l
  | _ + 1, [] => []
  | n + 1, c :: cs =>
    match tryMatch1 (c :: cs) with
    | some rest => repl1 ++ sub1Fuel n rest
    | none => c :: sub1Fuel n cs

/-- Fuelled scanner of `re.sub(r'-0-\d+-', '-0-2000-', url)`. -/
def sub2Fuel : Nat → List Char → List Char
  | 0, l => l
  | _ + 1, [] => []
  | n + 1, c :: cs =>
    match tryMatch2 (c :: cs) with
    | some rest => repl2 ++ sub2Fuel n rest
    | none => c :: sub2Fuel n cs

/-- First substitution at canonical fuel. -/
def sub1 (l : List Char) : List Char := sub1Fuel l.length l

/-- Second substitution at canonical fuel. -/
def sub2 (l : List Char) : List Char := sub2Fuel l.length l

/-- Marker substring of list-type entries. -/
def listMarker : List Char := "letterboxd-list-".data

/-- Resolution-upgrade step of `download_rss` (lines 274-282): list-entry
URLs are kept verbatim, every other URL goes through the two `re.sub`
calls, specific crop pattern first, simple width pattern second. -/
def upgradePosterUrl (u : List Char) : List Char :=
  if listContains listMarker u then u else sub2 (sub1 u)

/-- String-level resolution upgrade. -/
def upgradePosterUrlStr (s : String) : String := String.mk (upgradePosterUrl s.data)

/-- CDATA opening marker tested by `clean_description`. -/
def cdataOpen : String := "<![CDATA["

/-- CDATA closing marker tested by `clean_description`. -/
def cdataClose : String := "]]>"

/-- Python `str.startswith` (character-wise). -/
def strStartsWith (pre s : String) : Bool := pre.data.isPrefixOf s.data

/-- Python `str.endswith` (character-wise). -/
def strEndsWith (suf s : String) : Bool := suf.data.reverse.isPrefixOf s.data.reverse

/-- Python slicing `s[9:-3]`, as used to unwrap a CDATA section (both
markers are known present, so the length is at least 12 and the slice is
exactly drop-9-front, drop-3-back). -/
def sliceCdata (s : String) : String :=
  String.mk (((s.data.drop 9).reverse.drop 3).reverse)

/-- Preprocessing phase of `clean_description` (lines 151-158): unwrap a
CDATA-wrapped description, then HTML-unescape once if `&lt;` occurs.  The
unescape itself (`html.unescape`) is an external collaborator, passed in
as `unesc`. -/
def preClean (unesc : String → String) (description : String) : String :=
  let d1 := if strStartsWith cdataOpen description && strEndsWith cdataClose description
            then sliceCdata description else description
  if strContains "&lt;" d1 then unesc d1 else d1

/-- Embedding of `clean_description` (lines 149-188).  The whole
BeautifulSoup section (parse, drop `img` tags, drop empty `p` tags,
flatten non-allow-listed tags, serialize) is the oracle `soup`; `none`
models an exception raised anywhere inside that section, which the
function's own `except` handler turns into `return description` — and at
that point the local variable `description` holds the PREPROCESSED value,
not necessarily the original argument. -/
def clean_description (unesc : String → String) (soup : String → Option String)
    (description : String) : String :=
  let d2 := preClean unesc description
  match soup d2 with
  | some s =>
    let cleaned := String.mk (pyStrip s.data)
    if cleaned = "" then "<p>No content available</p>" else cleaned
  | none => d2

/-- Lifting of `clean_description` to optional text: `clean_description(None)`
raises `AttributeError` on `.startswith` inside its own `try`, and the
handler returns the argument, i.e. `None`. -/
def cleanDescriptionOpt (unesc : String → String) (soup : String → Option String) :
    Option String → Option String :=
  Option.map (clean_description unesc soup)

/-- Model of `re.search(r'src="([^"]+)"', description)` returning the first
capture group: scan left to right; at each position require the literal
`src="`, then a non-empty run of non-quote characters followed by `"`. -/
def trySrcAt (l : List Char) : Option (List Char) :=
  if "src=\"".data.isPrefixOf l then
    let rest := l.drop 5
    let cap := rest.takeWhile (fun c => !(c == '"'))
    let tl := rest.dropWhile (fun c => !(c == '"'))
    if cap ≠ [] ∧ tl ≠ [] then some cap else none
  else none

/-- Leftmost `src="..."` capture in a description, as in the RSS fallback
of the poster resolution (lines 253-257). -/
def findSrcAttr : List Char → Option (List Char)
  | [] => none
  | c :: cs =>
    match trySrcAt (c :: cs) with
    | some cap => some cap
    | none => findSrcAttr cs

/-- Python `str.split('/')` (always returns at least one piece). -/
def splitSlash : List Char → List (List Char)
  | [] => [[]]
  | c :: cs =>
    if c = '/' then [] :: splitSlash cs
    else
      match splitSlash cs with
      | [] => [[c]]
      | p :: ps => (c :: p) :: ps

/-- Normalization of the review link to the main film page (lines 222-227):
`rstrip('/')`, split on `/`, and when the last segment is all digits (a
diary index) drop it and re-join with a trailing slash; otherwise keep the
original link. -/
def normalizeLink (rl : String) : String :=
  let parts := splitSlash ((rl.data.reverse.dropWhile (fun c => c == '/')).reverse)
  match parts.getLast? with
  | some lastp =>
    if lastp ≠ [] ∧ lastp.all Char.isDigit
    then String.mk ((List.intercalate ['/'] parts.dropLast) ++ ['/'])
    else rl
  | none => rl

/-- Child element of an RSS `item` or `channel`: its tag, its text payload
(`.text`, which Python may report as `None`), and the byte-for-byte
serialization `ET.tostring(child, encoding='unicode')` would produce,
carried opaquely since the XML serializer is an external collaborator. -/
structure XElem where
  tag : String
  text : Option String
  ser : String
deriving DecidableEq

/-- An RSS `item`: its ordered child elements. -/
structure XItem where
  children : List XElem
deriving DecidableEq

/-- Model of `item.find(tag)`: first child with the given tag. -/
def XItem.find (it : XItem) (t : String) : Option XElem :=
  it.children.find? (fun c => c.tag == t)

/-- Parsed feed: channel-level metadata children (tag `item` excluded by
the emitter, as in the source) and the ordered items found by
`tree.findall('.//item')`. -/
structure Feed where
  channelMeta : List XElem
  items : List XItem

/-- Oracles for the external collaborators of the pipeline. -/
structure Env where
  scrape : String → Option String
  downloadOk : String → Bool
  thumbOk : String → Bool
  unesc : String → String
  soup : String → Option String

/-- Observable run state: which base filenames have a full image on disk,
which have a thumbnail, the image URLs fetched over the network by
`download_image` (every attempt is a GET, successful or not), the film
pages fetched by the scraper, and the `cleaned_descriptions` dictionary
(modelled as a cons-shadowing association list keyed by the guid text). -/
structure RunState where
  fulls : List String
  thumbs : List String
  downloads : List String
  scrapes : List String
  cleaned : List (Option String × Option String)
deriving DecidableEq

/-- Image materializer step (lines 290-297): if the full image is absent,
attempt the download (a network GET happens regardless of success); only
on success write the full file and, if the thumbnail is absent, attempt
it; if the full image exists but the thumbnail does not, regenerate only
the thumbnail; otherwise do nothing. -/
def materialize (env : Env) (st : RunState) (url : String) (base : String) : RunState :=
  if base ∈ st.fulls then
    if base ∈ st.thumbs then st
    else if env.thumbOk base then { st with thumbs := base :: st.thumbs } else st
  else
    if env.downloadOk url then
      if base ∈ st.thumbs then
        { st with downloads := st.downloads ++ [url], fulls := base :: st.fulls }
      else if env.thumbOk base then
        { st with downloads := st.downloads ++ [url], fulls := base :: st.fulls,
                  thumbs := base :: st.thumbs }
      else { st with downloads := st.downloads ++ [url], fulls := base :: st.fulls }
    else { st with downloads := st.downloads ++ [url] }

/-- Scrape gating of the poster resolution (lines 217-236): a page GET of
the normalized film URL is attempted exactly when the review link is a
non-empty string containing `/film/` and the normalized URL still
contains `/film/`. -/
def scrapeTarget (it : XItem) : Option String :=
  match (it.find "link").bind XElem.text with
  | some rl =>
    if rl ≠ "" ∧ strContains "/film/" rl then
      if strContains "/film/" (normalizeLink rl) then some (normalizeLink rl) else none
    else none
  | none => none

/-- Scraped candidate URL: the og:image content of the fetched film page
when a scrape happens and the oracle yields a non-empty content. -/
def scrapedUrl (env : Env) (it : XItem) : Option String :=
  match scrapeTarget it with
  | some m =>
    match env.scrape m with
    | some c => if c = "" then none else some c
    | none => none
  | none => none

/-- State effect of the resolution: the page GET is recorded exactly when
a scrape target exists. -/
def resolveState (st : RunState) (it : XItem) : RunState :=
  match scrapeTarget it with
  | some m => { st with scrapes := st.scrapes ++ [m] }
  | none => st

/-- Poster URL resolution (lines 217-257): the scraped og:image when the
scrape succeeds with a truthy content, else the first `src="..."` of the
raw description — the fallback raises (`TypeError`, modelled as
`Except.error`) when the description text is `None`.  The capture of the
fallback regex is never empty, and an empty scraped content is falsy and
treated as absent, so any returned candidate is a non-empty URL. -/
def resolvePoster (env : Env) (st : RunState) (it : XItem) (description : Option String) :
    RunState × Except Unit (Option String) :=
  match scrapedUrl env it with
  | some u => (resolveState st it, Except.ok (some u))
  | none =>
    match description with
    | none => (resolveState st it, Except.error ())
    | some d =>
      match findSrcAttr d.data with
      | some cap => (resolveState st it, Except.ok (some (String.mk cap)))
      | none => (resolveState st it, Except.ok none)

/-- Final per-item step (lines 303-307): clean the description, then look
up the guid — `item.find('guid').text` raises when there is no guid child,
and only after a successful lookup is the dictionary updated. -/
def finishClean (env : Env) (st : RunState) (it : XItem) (description : Option String) :
    Except RunState RunState :=
  let cd := cleanDescriptionOpt env.unesc env.soup description
  match it.find "guid" with
  | none => Except.error st
  | some g => Except.ok { st with cleaned := (g.text, cd) :: st.cleaned }

/-- Body of the per-item `try` block (lines 211-307).  `Except.error s`
models an exception escaping to the per-item handler with the observable
state `s` at the moment of the raise. -/
def processItemCore (env : Env) (st : RunState) (it : XItem) : Except RunState RunState :=
  match it.find "description" with
  | none => Except.error st
  | some dElem =>
    let description := dElem.text
    match it.find "title" with
    | none => Except.error st
    | some tElem =>
      match resolvePoster env st it description with
      | (st1, Except.error _) => Except.error st1
      | (st1, Except.ok imgUrl) =>
        match imgUrl with
        | some u =>
          if strContains "empty-poster" u then
            match it.find "guid" with
            | none => Except.error st1
            | some g =>
              Except.ok { st1 with
                cleaned := (g.text, cleanDescriptionOpt env.unesc env.soup description) ::
                  st1.cleaned }
          else
            match tElem.text with
            | none => Except.error st1
            | some t =>
              let base := String.mk (rstripHyphens (sanitize_filename t).data)
              let st2 := materialize env st1 (upgradePosterUrlStr u) base
              finishClean env st2 it description
        | none => finishClean env st1 it description

/-- One loop iteration including the `except ... continue` handler: an
exception is swallowed and the state reached so far is kept. -/
def processItem (env : Env) (st : RunState) (it : XItem) : RunState :=
  match processItemCore env st it with
  | Except.ok s => s
  | Except.error s => s

/-- The item loop of `download_rss`. -/
def processItems (env : Env) : RunState → List XItem → RunState
  | st, [] => st
  | st, it :: rest => processItems env (processItem env st it) rest

/-- Python `f'{x}'` of an optional string (`None` prints as `None`). -/
def pyStr : Option String → String
  | some s => s
  | none => "None"

/-- Description line of an emitted item (lines 351-358): the cleaned value
when the guid is a key of the dictionary, else the original description
text (empty when the element is missing). -/
def descValue (m : List (Option String × Option String)) (gid : Option String)
    (it : XItem) : String :=
  match m.lookup gid with
  | some v => pyStr v
  | none =>
    match it.find "description" with
    | some e => pyStr e.text
    | none => ""

/-- Emitted lines of one item (lines 337-361): open tag, every child
except the description re-serialized verbatim (indented), the CDATA
description line, close tag. -/
def emitItem (m : List (Option String × Option String)) (gid : Option String)
    (it : XItem) : List String :=
  "    <item>" ::
    ((it.children.filter (fun c => !(c.tag == "description"))).map
      (fun c => "      " ++ c.ser) ++
     ["      <description><![CDATA[" ++ descValue m gid it ++ "]]></description>",
      "    </item>"])

/-- Emitted lines of the item section: items in document order, items
without a guid child skipped. -/
def emitItems (m : List (Option String × Option String)) : List XItem → List String
  | [] => []
  | it :: rest =>
    match it.find "guid" with
    | none => emitItems m rest
    | some g => emitItem m g.text it ++ emitItems m rest

/-- Fixed document header of `cleaned_rss.xml` (lines 337-339). -/
def docHeader : List String :=
  ["<?xml version=\"1.0\" encoding=\"utf-8\"?>",
   "<rss version=\"2.0\" xmlns:dc=\"http://purl.org/dc/elements/1.1/\" xmlns:atom=\"http://www.w3.org/2005/Atom\" xmlns:letterboxd=\"https://letterboxd.com\" xmlns:tmdb=\"https://themoviedb.org\">",
   "  <channel>"]

/-- Fixed document footer (lines 364-365). -/
def docFooter : List String := ["  </channel>", "</rss>"]

/-- Reassembled output document: header, channel metadata verbatim with
`item` children excluded, the item section, footer. -/
def emitDoc (feed : Feed) (m : List (Option String × Option String)) : List String :=
  docHeader ++
    (feed.channelMeta.filter (fun c => !(c.tag == "item"))).map (fun c => "    " ++ c.ser) ++
    emitItems m feed.items ++ docFooter

/-- Whole-run model of `download_rss` after the feed has been fetched and
parsed: process every item, then reassemble the document from the final
cleaned-description dictionary. -/
def download_rss (env : Env) (feed : Feed) (st : RunState) : RunState × List String :=
  let st1 := processItems env st feed.items
  (st1, emitDoc feed st1.cleaned)

/-- Concrete oracle environment used by witnesses: no link scraping, every
download and thumbnail succeeds, the HTML-unescape is the identity, the
soup section fails (exercising the fail-open path of `clean_description`,
which then returns its preprocessed input). -/
def wEnv : Env :=
  { scrape := fun _ => none
    downloadOk := fun _ => true
    thumbOk := fun _ => true
    unesc := id
    soup := fun _ => none }

/-- Empty run state: no cached images, no recorded effects. -/
def emptyState : RunState :=
  { fulls := [], thumbs := [], downloads := [], scrapes := [], cleaned := [] }

/-- Witness description whose only image reference is an empty-poster
placeholder. -/
def descPlaceholder : String :=
  "<p><img src=\"https://s.ltrbxd.com/static/img/empty-poster-500.png\"/>Review.</p>"

/-- Witness description with a normal low-resolution poster reference. -/
def descPoster : String :=
  "<p><img src=\"https://a.ltrbxd.com/resized/poster-0-230-0-345-crop.jpg\"/>Nice.</p>"

/-- Witness item whose resolved poster URL is the placeholder. -/
def itemB : XItem :=
  { children :=
      [ { tag := "title", text := some "Some Movie", ser := "<title>Some Movie</title>" },
        { tag := "guid", text := some "g-b", ser := "<guid>g-b</guid>" },
        { tag := "description", text := some descPlaceholder,
          ser := "<description>...</description>" } ] }

/-- Witness item with a normal poster but no `guid` child. -/
def itemNoGuid : XItem :=
  { children :=
      [ { tag := "title", text := some "Dune", ser := "<title>Dune</title>" },
        { tag := "description", text := some descPoster,
          ser := "<description>...</description>" } ] }

/-- Witness item with a `guid` child but no `description` child. -/
def itemNoDesc : XItem :=
  { children :=
      [ { tag := "guid", text := some "g-c", ser := "<guid>g-c</guid>" },
        { tag := "title", text := some "T", ser := "<title>T</title>" } ] }

example : sanitize_filename "Spider-Man: Into the Spider-Verse½" =
    "spider-man-into-the-spider-verse" := by decide

example : sanitize_filename "Parasite (contains spoilers)" = "parasite" := by decide

example : sanitizeL "a ½ b".data = "a--b".data := by decide

example : sanitizeL "a--b".data = "a-b".data := by decide

example : upgradePosterUrl "https://a.ltrbxd.com/poster-0-230-0-345-crop.jpg".data =
    "https://a.ltrbxd.com/poster-0-2000-0-3000-crop.jpg".data := by decide

example : upgradePosterUrl "x-0-230-y".data = "x-0-2000-y".data := by decide

example : upgradePosterUrl "a-0-0-230-0-345-crop".data =
    "a-0-2000-2000-0-2000-crop".data := by decide

example : listContains "-0-2000-0-3000-crop".data
    (upgradePosterUrl "a-0-0-230-0-345-crop".data) = false := by decide

example : normalizeLink "https://letterboxd.com/u/film/dune/2/" =
    "https://letterboxd.com/u/film/dune/" := by decide

example : findSrcAttr "<p><img src=\"https://x/y.jpg\"/></p>".data =
    some "https://x/y.jpg".data := by decide


theorem isPrefixOf_iff_append {pat : List Char} :
    ∀ {l : List Char}, pat.isPrefixOf l = true ↔ ∃ t, l = pat ++ t := by
  induction pat with
  | nil => intro l; simp [List.isPrefixOf]
  | cons a p ih =>
    intro l
    cases l with
    | nil => simp [List.isPrefixOf]
    | cons c cs =>
      simp only [List.isPrefixOf, Bool.and_eq_true, beq_iff_eq, ih, List.cons_append]
      constructor
      · rintro ⟨rfl, t, rfl⟩
        exact ⟨t, rfl⟩
      · rintro ⟨t, h⟩
        injection h with h1 h2
        exact ⟨h1.symm, t, h2⟩

theorem isPrefixOf_self_append (p t : List Char) : p.isPrefixOf (p ++ t) = true :=
  isPrefixOf_iff_append.mpr ⟨t, rfl⟩

theorem listContains_iff {pat : List Char} :
    ∀ {l : List Char}, listContains pat l = true ↔ ∃ s t, l = s ++ pat ++ t := by
  intro l
  induction l with
  | nil =>
    simp only [listContains, isPrefixOf_iff_append]
    constructor
    · rintro ⟨t, h⟩
      exact ⟨[], t, by simpa using h⟩
    · rintro ⟨s, t, h⟩
      have hs : s = [] := by
        cases s with
        | nil => rfl
        | cons x xs => simp at h
      subst hs
      exact ⟨t, by simpa using h⟩
  | cons c cs ih =>
    simp only [listContains, Bool.or_eq_true, isPrefixOf_iff_append, ih]
    constructor
    · rintro (⟨t, h⟩ | ⟨s, t, h⟩)
      · exact ⟨[], t, by simpa using h⟩
      · exact ⟨c :: s, t, by simp [h]⟩
    · rintro ⟨s, t, h⟩
      cases s with
      | nil => exact Or.inl ⟨t, by simpa using h⟩
      | cons x xs =>
        injection h with h1 h2
        exact Or.inr ⟨xs, t, h2⟩

theorem listContains_of_tail {pat : List Char} {c : Char} {cs : List Char}
    (h : listContains pat cs = true) : listContains pat (c :: cs) = true := by
  simp [listContains, h]

theorem listContains_self_append (pat t : List Char) :
    listContains pat (pat ++ t) = true :=
  listContains_iff.mpr ⟨[], t, rfl⟩

theorem listContains_sub_trans {q p l : List Char} (hq : listContains q p = true)
    (hp : listContains p l = true) : listContains q l = true := by
  obtain ⟨s1, t1, rfl⟩ := listContains_iff.mp hq
  obtain ⟨s2, t2, rfl⟩ := listContains_iff.mp hp
  exact listContains_iff.mpr ⟨s2 ++ s1, t1 ++ t2, by simp⟩

theorem listContains_length {pat l : List Char} (h : listContains pat l = true) :
    pat.length ≤ l.length := by
  obtain ⟨s, t, rfl⟩ := listContains_iff.mp h
  simp
  omega

theorem mem_replFuel {pat rep : List Char} {x : Char} :
    ∀ {n : Nat} {l : List Char}, x ∈ replFuel pat rep n l → x ∈ rep ∨ x ∈ l := by
  intro n
  induction n with
  | zero => intro l h; exact Or.inr h
  | succ n ih =>
    intro l h
    cases l with
    | nil => simp [replFuel] at h
    | cons c cs =>
      rw [replFuel] at h
      split at h
      · rcases List.mem_append.mp h with h1 | h1
        · exact Or.inl h1
        · rcases ih h1 with h2 | h2
          · exact Or.inl h2
          · exact Or.inr (List.drop_subset _ _ h2)
      · rcases List.mem_cons.mp h with h1 | h1
        · exact Or.inr (h1 ▸ List.mem_cons_self _ _)
        · rcases ih h1 with h2 | h2
          · exact Or.inl h2
          · exact Or.inr (List.mem_cons_of_mem _ h2)

theorem replFuel_eq_self {pat rep : List Char} {a : Char} (ha : a ∈ pat) :
    ∀ {n : Nat} {l : List Char}, a ∉ l → replFuel pat rep n l = l := by
  intro n
  induction n with
  | zero => intro l _; rfl
  | succ n ih =>
    intro l hl
    cases l with
    | nil => rfl
    | cons c cs =>
      rw [replFuel]
      have hpre : pat.isPrefixOf (c :: cs) = false := by
        by_contra hcon
        have := isPrefixOf_iff_append.mp (by simpa using hcon)
        obtain ⟨t, ht⟩ := this
        exact hl (ht ▸ List.mem_append.mpr (Or.inl ha))
      rw [hpre]
      simp only [Bool.false_eq_true, if_false]
      have : a ∉ cs := fun h => hl (List.mem_cons_of_mem _ h)
      rw [ih this]

theorem replFuel_dd_length_le :
    ∀ (n : Nat) (l : List Char), (replFuel ddPat ['-'] n l).length ≤ l.length := by
  intro n
  induction n with
  | zero => intro l; exact Nat.le_refl _
  | succ n ih =>
    intro l
    cases l with
    | nil => simp [replFuel]
    | cons c cs =>
      rw [replFuel]
      split
      · next hpre =>
        obtain ⟨t, ht⟩ := isPrefixOf_iff_append.mp hpre
        have hdrop : (c :: cs).drop ddPat.length = t := by
          rw [ht, List.drop_left]
        rw [hdrop]
        have h2 := ih t
        have hlen : cs.length = t.length + 1 := by
          have := congrArg List.length ht
          simpa [ddPat] using this
        simp only [List.length_append, List.length_cons, List.length_nil]
        omega
      · simp only [List.length_cons]
        exact Nat.succ_le_succ (ih cs)

theorem replFuel_dd_length_lt :
    ∀ (n : Nat) (l : List Char), l.length ≤ n → listContains ddPat l = true →
      (replFuel ddPat ['-'] n l).length < l.length := by
  intro n
  induction n with
  | zero =>
    intro l hn hc
    have := listContains_length hc
    simp [ddPat] at this
    omega
  | succ n ih =>
    intro l hn hc
    cases l with
    | nil =>
      have := listContains_length hc
      simp [ddPat] at this
    | cons c cs =>
      rw [replFuel]
      split
      · next hpre =>
        obtain ⟨t, ht⟩ := isPrefixOf_iff_append.mp hpre
        have hdrop : (c :: cs).drop ddPat.length = t := by
          rw [ht, List.drop_left]
        rw [hdrop]
        have h2 := replFuel_dd_length_le n t
        have hlen : cs.length = t.length + 1 := by
          have := congrArg List.length ht
          simpa [ddPat] using this
        simp only [List.length_append, List.length_cons, List.length_nil]
        omega
      · next hpre =>
        have hcs : listContains ddPat cs = true := by
          rw [listContains] at hc
          simp only [Bool.or_eq_true] at hc
          rcases hc with h | h
          · exact absurd h hpre
          · exact h
        have := ih cs (by simp at hn; omega) hcs
        simp only [List.length_cons]
        omega

theorem collapseFuel_no_dd :
    ∀ (n : Nat) (l : List Char), l.length ≤ n →
      listContains ddPat (collapseFuel n l) = false := by
  intro n
  induction n with
  | zero =>
    intro l hn
    have hl : l = [] := List.eq_nil_of_length_eq_zero (Nat.le_zero.mp hn)
    subst hl
    simp [collapseFuel, listContains, ddPat, List.isPrefixOf]
  | succ n ih =>
    intro l hn
    rw [collapseFuel]
    by_cases hc : listContains ddPat l = true
    · rw [hc]
      simp only [if_true]
      have hlt := replFuel_dd_length_lt (l.length) l (Nat.le_refl _) hc
      exact ih _ (by unfold pyReplace at *; omega)
    · rw [Bool.not_eq_true] at hc
      rw [hc]
      simpa using hc

theorem collapseFuel_eq_self {l : List Char} (h : listContains ddPat l = false) :
    ∀ n, collapseFuel n l = l := by
  intro n
  cases n with
  | zero => rfl
  | succ n => rw [collapseFuel, h]; simp

theorem mem_collapseFuel {x : Char} :
    ∀ {n : Nat} {l : List Char}, x ∈ collapseFuel n l → x ∈ l ∨ x = '-' := by
  intro n
  induction n with
  | zero => intro l h; exact Or.inl h
  | succ n ih =>
    intro l h
    rw [collapseFuel] at h
    split at h
    · rcases ih h with h1 | h1
      · rcases mem_replFuel h1 with h2 | h2
        · simp at h2; exact Or.inr h2
        · exact Or.inl h2
      · exact Or.inr h1
    · exact Or.inl h

theorem dropWhile_eq_self_of_all {p : Char → Bool} {l : List Char}
    (h : ∀ c ∈ l, p c = false) : l.dropWhile p = l := by
  cases l with
  | nil => rfl
  | cons c cs =>
    rw [List.dropWhile_cons, h c (List.mem_cons_self _ _)]
    simp

theorem mem_dropWhile {p : Char → Bool} {l : List Char} {x : Char}
    (h : x ∈ l.dropWhile p) : x ∈ l :=
  (List.dropWhile_sublist p).mem h

theorem mem_stripHyphens {l : List Char} {x : Char} (h : x ∈ stripHyphens l) : x ∈ l := by
  unfold stripHyphens at h
  rw [List.mem_reverse] at h
  have h1 := mem_dropWhile h
  rw [List.mem_reverse] at h1
  exact mem_dropWhile h1

theorem mem_pyStrip {l : List Char} {x : Char} (h : x ∈ pyStrip l) : x ∈ l := by
  unfold pyStrip at h
  rw [List.mem_reverse] at h
  have h1 := mem_dropWhile h
  rw [List.mem_reverse] at h1
  exact mem_dropWhile h1

theorem stripHyphens_decomp (l : List Char) :
    ∃ s t, l = s ++ stripHyphens l ++ t := by
  unfold stripHyphens
  set p : Char → Bool := fun c => c == '-' with hp
  set m := l.dropWhile p with hm
  have h1 : l.takeWhile p ++ m = l := List.takeWhile_append_dropWhile (p := p) (l := l)
  have h2 : m.reverse.takeWhile p ++ m.reverse.dropWhile p = m.reverse :=
    List.takeWhile_append_dropWhile (p := p) (l := m.reverse)
  refine ⟨l.takeWhile p, (m.reverse.takeWhile p).reverse, ?_⟩
  have h3 : m = (m.reverse.dropWhile p).reverse ++ (m.reverse.takeWhile p).reverse := by
    have h4 : m.reverse = m.reverse.takeWhile p ++ m.reverse.dropWhile p := h2.symm
    have h5 := congrArg List.reverse h4
    rw [List.reverse_reverse, List.reverse_append] at h5
    exact h5
  calc l = l.takeWhile p ++ m := h1.symm
    _ = l.takeWhile p ++ ((m.reverse.dropWhile p).reverse ++ (m.reverse.takeWhile p).reverse) := by
        rw [← h3]
    _ = l.takeWhile p ++ (m.reverse.dropWhile p).reverse ++ (m.reverse.takeWhile p).reverse := by
        simp [List.append_assoc]

theorem noDD_stripHyphens {l : List Char} (h : listContains ddPat l = false) :
    listContains ddPat (stripHyphens l) = false := by
  by_contra hcon
  rw [Bool.not_eq_false] at hcon
  obtain ⟨s, t, hst⟩ := stripHyphens_decomp l
  have : listContains ddPat l = true := by
    obtain ⟨s1, t1, h1⟩ := listContains_iff.mp hcon
    refine listContains_iff.mpr ⟨s ++ s1, t1 ++ t, ?_⟩
    rw [hst, h1]
    simp [List.append_assoc]
  rw [this] at h
  exact Bool.true_eq_false.mp h

theorem lowerPairs_value_not_key :
    ∀ p ∈ lowerPairs, ∀ q ∈ lowerPairs, (q.1 == p.2) = false := by decide

theorem lowerPairs_value_not_half : ∀ p ∈ lowerPairs, (p.2 == '½') = false := by decide

theorem pyLower_pyLower (c : Char) : pyLower (pyLower c) = pyLower c := by
  unfold pyLower
  cases h : lowerPairs.find? (fun p => p.1 == c) with
  | none => rw [h]
  | some p =>
    have hp : p ∈ lowerPairs := List.mem_of_find?_eq_some h
    have hnone : lowerPairs.find? (fun q => q.1 == p.2) = none := by
      rw [List.find?_eq_none]
      intro q hq
      rw [lowerPairs_value_not_key p hp q hq]
      simp
    rw [hnone]

theorem pyLower_eq_half {c : Char} (h : pyLower c = '½') : c = '½' := by
  unfold pyLower at h
  cases hf : lowerPairs.find? (fun p => p.1 == c) with
  | none => rw [hf] at h; exact h
  | some p =>
    rw [hf] at h
    have h2 : p.2 = '½' := h
    have hp : p ∈ lowerPairs := List.mem_of_find?_eq_some hf
    have := lowerPairs_value_not_half p hp
    rw [h2] at this
    simp at this

theorem map_eq_self_of_fixed {f : Char → Char} :
    ∀ {l : List Char}, (∀ c ∈ l, f c = c) → l.map f = l := by
  intro l
  induction l with
  | nil => intro _; rfl
  | cons c cs ih =>
    intro h
    simp only [List.map_cons]
    rw [h c (List.mem_cons_self _ _), ih (fun x hx => h x (List.mem_cons_of_mem _ hx))]

theorem pyStrip_eq_self {y : List Char} (h : ∀ c ∈ y, pyIsSpace c = false) :
    pyStrip y = y := by
  unfold pyStrip
  rw [dropWhile_eq_self_of_all h]
  rw [dropWhile_eq_self_of_all (fun c hc => h c (List.mem_reverse.mp hc))]
  exact List.reverse_reverse y

theorem keepChar_not_space {c : Char} (hk : keepChar c = true) : pyIsSpace c = false := by
  by_contra hcon
  rw [Bool.not_eq_false] at hcon
  simp only [pyIsSpace, Bool.or_eq_true, beq_iff_eq] at hcon
  rcases hcon with ((((rfl | rfl) | rfl) | rfl) | rfl) | rfl <;>
    simp [keepChar, pyIsAlnum] at hk

theorem headNot_dropWhile (l : List Char) :
    headNotHyphen (l.dropWhile (fun c => c == '-')) = true := by
  induction l with
  | nil => rfl
  | cons c cs ih =>
    rw [List.dropWhile_cons]
    by_cases h : (c == '-') = true
    · rw [h]
      simpa using ih
    · rw [Bool.not_eq_true] at h
      rw [h]
      simp [headNotHyphen, h]

theorem stripHyphens_head_facts (l : List Char) :
    headNotHyphen (stripHyphens l) = true ∧
      headNotHyphen (stripHyphens l).reverse = true := by
  set p : Char → Bool := fun c => c == '-' with hp
  set m := l.dropWhile p with hm
  have hmid : m = stripHyphens l ++ (m.reverse.takeWhile p).reverse := by
    have h2 : m.reverse.takeWhile p ++ m.reverse.dropWhile p = m.reverse :=
      List.takeWhile_append_dropWhile (p := p) (l := m.reverse)
    have h4 : m.reverse = m.reverse.takeWhile p ++ m.reverse.dropWhile p := h2.symm
    have h5 := congrArg List.reverse h4
    rw [List.reverse_reverse, List.reverse_append] at h5
    exact h5
  constructor
  · have hmhead : headNotHyphen m = true := headNot_dropWhile l
    cases hs : stripHyphens l with
    | nil => rfl
    | cons c cs =>
      rw [hs] at hmid
      rw [hmid] at hmhead
      simpa [headNotHyphen] using hmhead
  · have : (stripHyphens l).reverse = m.reverse.dropWhile p := by
      unfold stripHyphens
      rw [← hp, ← hm, List.reverse_reverse]
    rw [this]
    exact headNot_dropWhile m.reverse

theorem stripHyphens_eq_self {y : List Char} (hh : headNotHyphen y = true)
    (hr : headNotHyphen y.reverse = true) : stripHyphens y = y := by
  have h1 : y.dropWhile (fun c => c == '-') = y := by
    cases y with
    | nil => rfl
    | cons c cs =>
      rw [List.dropWhile_cons]
      simp only [headNotHyphen, Bool.not_eq_true'] at hh
      rw [hh]
      simp
  have h2 : y.reverse.dropWhile (fun c => c == '-') = y.reverse := by
    cases hy : y.reverse with
    | nil => simp
    | cons c cs =>
      rw [hy] at hr
      rw [List.dropWhile_cons]
      simp only [headNotHyphen, Bool.not_eq_true'] at hr
      rw [hr]
      simp
  unfold stripHyphens
  rw [h1, h2, List.reverse_reverse]

theorem sanitizeL_fixed {y : List Char} (h : isCleanName y = true) : sanitizeL y = y := by
  simp only [isCleanName, Bool.and_eq_true, List.all_eq_true, Bool.not_eq_true'] at h
  obtain ⟨⟨⟨hall, hdd⟩, hh⟩, hr⟩ := h
  have hkeep : ∀ c ∈ y, keepChar c = true := by
    intro c hc
    have := hall c hc
    simp only [Bool.and_eq_true] at this
    exact this.1.1
  have hlow : ∀ c ∈ y, pyLower c = c := by
    intro c hc
    have := hall c hc
    simp only [Bool.and_eq_true, beq_iff_eq] at this
    exact this.1.2
  have hhalf : '½' ∉ y := by
    intro hc
    have := hall '½' hc
    simp only [Bool.and_eq_true, Bool.not_eq_true'] at this
    simpa using this.2
  have hnospace : ' ' ∉ y := by
    intro hc
    have := hkeep ' ' hc
    simp [keepChar, pyIsAlnum, Char.isAlphanum, Char.isAlpha, Char.isUpper, Char.isLower,
      Char.isDigit] at this
  have hnoparen : '(' ∉ y := by
    intro hc
    have := hkeep '(' hc
    simp [keepChar, pyIsAlnum, Char.isAlphanum, Char.isAlpha, Char.isUpper, Char.isLower,
      Char.isDigit] at this
  have hws : ∀ c ∈ y, pyIsSpace c = false := fun c hc => keepChar_not_space (hkeep c hc)
  have e1 : pyReplace "(contains spoilers)".data [] y = y :=
    replFuel_eq_self (a := '(') (by decide) hnoparen
  have e2 : pyStrip y = y := pyStrip_eq_self hws
  have e3 : pyReplace "contains spoilers".data [] y = y :=
    replFuel_eq_self (a := ' ') (by decide) hnospace
  have e4 : List.map pyLower y = y := map_eq_self_of_fixed hlow
  have e5 : pyReplace [' '] ['-'] y = y :=
    replFuel_eq_self (a := ' ') (List.mem_singleton.mpr rfl) hnospace
  have e6 : List.filter keepChar y = y := List.filter_eq_self.mpr hkeep
  have e7 : collapseHyphens y = y := collapseFuel_eq_self hdd _
  have e8 : stripHyphens y = y := stripHyphens_eq_self hh hr
  have e9 : pyReplace ['½'] [] y = y :=
    replFuel_eq_self (a := '½') (List.mem_singleton.mpr rfl) hhalf
  unfold sanitizeL
  rw [e1, e2, e3, e2, e4, e5, e6, e7, e8, e9]

theorem sanitizeL_isCleanName {l : List Char} (hx : '½' ∉ l) :
    isCleanName (sanitizeL l) = true := by
  set t1 := pyReplace "(contains spoilers)".data [] l with ht1
  set u1 := pyStrip t1 with hu1
  set t2 := pyReplace "contains spoilers".data [] u1 with ht2
  set u2 := pyStrip t2 with hu2
  set t3 := List.map pyLower u2 with ht3
  set t4 := pyReplace [' '] ['-'] t3 with ht4
  set t5 := List.filter keepChar t4 with ht5
  set t6 := collapseHyphens t5 with ht6
  set t7 := stripHyphens t6 with ht7
  have half1 : '½' ∉ t1 := by
    intro hc
    rcases mem_replFuel hc with h | h
    · simp at h
    · exact hx h
  have half2 : '½' ∉ u1 := fun hc => half1 (mem_pyStrip hc)
  have half3 : '½' ∉ t2 := by
    intro hc
    rcases mem_replFuel hc with h | h
    · simp at h
    · exact half2 h
  have half4 : '½' ∉ u2 := fun hc => half3 (mem_pyStrip hc)
  have half5 : '½' ∉ t3 := by
    intro hc
    rw [ht3, List.mem_map] at hc
    obtain ⟨a, ha, hla⟩ := hc
    exact half4 ((pyLower_eq_half hla) ▸ ha)
  have half6 : '½' ∉ t4 := by
    intro hc
    rcases mem_replFuel hc with h | h
    · simp at h
    · exact half5 h
  have half7 : '½' ∉ t5 := fun hc => half6 (List.mem_of_mem_filter hc)
  have half8 : '½' ∉ t6 := by
    intro hc
    rcases mem_collapseFuel hc with h | h
    · exact half7 h
    · simp at h
  have half9 : '½' ∉ t7 := fun hc => half8 (mem_stripHyphens hc)
  have hlast : sanitizeL l = t7 := by
    unfold sanitizeL
    rw [← ht1, ← hu1, ← ht2, ← hu2, ← ht3, ← ht4, ← ht5, ← ht6, ← ht7]
    exact replFuel_eq_self (a := '½') (List.mem_singleton.mpr rfl) half9
  rw [hlast]
  have hgood : ∀ c ∈ t7, keepChar c = true ∧ pyLower c = c := by
    intro c hc
    have hc6 : c ∈ t6 := mem_stripHyphens hc
    rcases mem_collapseFuel hc6 with hc5 | hd
    · have hkeep : keepChar c = true := List.of_mem_filter hc5
      have hc4 : c ∈ t4 := List.mem_of_mem_filter hc5
      refine ⟨hkeep, ?_⟩
      rcases mem_replFuel hc4 with h | h
      · have : c = '-' := by simpa using h
        subst this
        decide
      · rw [ht3, List.mem_map] at h
        obtain ⟨a, _, hla⟩ := h
        rw [← hla]
        exact pyLower_pyLower a
    · subst hd
      exact ⟨by decide, by decide⟩
  have hdd7 : listContains ddPat t7 = false := by
    have hdd6 : listContains ddPat t6 = false := by
      rw [ht6]
      exact collapseFuel_no_dd t5.length t5 (Nat.le_refl _)
    exact noDD_stripHyphens hdd6
  have hheads := stripHyphens_head_facts t6
  unfold isCleanName
  simp only [Bool.and_eq_true, Bool.not_eq_true', List.all_eq_true]
  refine ⟨⟨⟨?_, hdd7⟩, ?_⟩, ?_⟩
  · intro c hc
    obtain ⟨hk, hl2⟩ := hgood c hc
    have hch : ¬(c = '½') := fun hcc => half9 (hcc ▸ hc)
    simp [hk, hl2, hch]
  · exact hheads.1
  · exact hheads.2

theorem tryMatch2_p230 (t : List Char) : tryMatch2 ("-0-230-".data ++ t) = some t := rfl

theorem tryMatch2_repl2 (t : List Char) : tryMatch2 (repl2 ++ t) = some t := rfl

theorem sub2Fuel_contains :
    ∀ (n : Nat) (l : List Char), l.length ≤ n →
      (listContains "-0-230-".data l = true ∨ listContains repl2 l = true) →
      listContains repl2 (sub2Fuel n l) = true := by
  intro n
  induction n with
  | zero =>
    intro l hn hc
    have hl : l = [] := List.eq_nil_of_length_eq_zero (Nat.le_zero.mp hn)
    subst hl
    rcases hc with hc | hc <;> simp [listContains, List.isPrefixOf] at hc
  | succ n ih =>
    intro l hn hc
    cases l with
    | nil => rcases hc with hc | hc <;> simp [listContains, List.isPrefixOf] at hc
    | cons c cs =>
      rw [sub2Fuel]
      cases hm : tryMatch2 (c :: cs) with
      | some rest => exact listContains_self_append repl2 _
      | none =>
        have hcs : listContains "-0-230-".data cs = true ∨ listContains repl2 cs = true := by
          rcases hc with hc | hc
          · rw [listContains, Bool.or_eq_true] at hc
            rcases hc with hc | hc
            · obtain ⟨t, ht⟩ := isPrefixOf_iff_append.mp hc
              rw [ht, tryMatch2_p230 t] at hm
              exact absurd hm (by simp)
            · exact Or.inl hc
          · rw [listContains, Bool.or_eq_true] at hc
            rcases hc with hc | hc
            · obtain ⟨t, ht⟩ := isPrefixOf_iff_append.mp hc
              rw [ht, tryMatch2_repl2 t] at hm
              exact absurd hm (by simp)
            · exact Or.inr hc
        have hlen : cs.length ≤ n := by
          simp only [List.length_cons] at hn
          omega
        exact listContains_of_tail (ih cs hlen hcs)

theorem sub1Fuel_cases :
    ∀ (n : Nat) (l : List Char),
      sub1Fuel n l = l ∨ listContains repl1 (sub1Fuel n l) = true := by
  intro n
  induction n with
  | zero => intro l; exact Or.inl rfl
  | succ n ih =>
    intro l
    cases l with
    | nil => exact Or.inl rfl
    | cons c cs =>
      rw [sub1Fuel]
      cases hm : tryMatch1 (c :: cs) with
      | some rest => exact Or.inr (listContains_self_append repl1 _)
      | none =>
        rcases ih cs with h | h
        · rw [h]
          exact Or.inl rfl
        · exact Or.inr (listContains_of_tail h)

theorem repl1_has_repl2 : listContains repl2 repl1 = true := by decide

theorem p230_in_crop : listContains "-0-230-".data "-0-230-0-345-crop".data = true := by decide

theorem upgradePosterUrl_has_2000 {u : List Char}
    (hlist : listContains listMarker u = false)
    (h230 : listContains "-0-230-".data u = true) :
    listContains repl2 (upgradePosterUrl u) = true := by
  unfold upgradePosterUrl
  rw [hlist]
  simp only [Bool.false_eq_true, if_false]
  unfold sub2
  rcases sub1Fuel_cases u.length u with h | h
  · unfold sub1
    rw [h]
    exact sub2Fuel_contains u.length u (Nat.le_refl _) (Or.inl h230)
  · unfold sub1
    exact sub2Fuel_contains _ _ (Nat.le_refl _)
      (Or.inr (listContains_sub_trans repl1_has_repl2 h))


theorem materialize_cleaned (env : Env) (st : RunState) (u b : String) :
    (materialize env st u b).cleaned = st.cleaned := by
  unfold materialize
  split
  · split
    · rfl
    · split <;> rfl
  · split
    · split
      · rfl
      · split <;> rfl
    · rfl

theorem materialize_scrapes (env : Env) (st : RunState) (u b : String) :
    (materialize env st u b).scrapes = st.scrapes := by
  unfold materialize
  split
  · split
    · rfl
    · split <;> rfl
  · split
    · split
      · rfl
      · split <;> rfl
    · rfl

theorem resolvePoster_fst (env : Env) (st : RunState) (it : XItem) (d : Option String) :
    (resolvePoster env st it d).1 = resolveState st it := by
  unfold resolvePoster
  cases hs : scrapedUrl env it with
  | some u => rfl
  | none =>
    cases d with
    | none => rfl
    | some s => cases hf : findSrcAttr s.data <;> simp [hf]

theorem resolveState_frame (st : RunState) (it : XItem) :
    (resolveState st it).fulls = st.fulls ∧
    (resolveState st it).thumbs = st.thumbs ∧
    (resolveState st it).downloads = st.downloads ∧
    (resolveState st it).cleaned = st.cleaned := by
  unfold resolveState
  cases scrapeTarget it <;> exact ⟨rfl, rfl, rfl, rfl⟩

theorem emitItems_append (m : List (Option String × Option String)) (l1 l2 : List XItem) :
    emitItems m (l1 ++ l2) = emitItems m l1 ++ emitItems m l2 := by
  induction l1 with
  | nil => rfl
  | cons it rest ih =>
    rw [List.cons_append, emitItems, emitItems]
    cases it.find "guid" with
    | none =>
      show emitItems m (rest ++ l2) = emitItems m rest ++ emitItems m l2
      exact ih
    | some g =>
      show emitItem m g.text it ++ emitItems m (rest ++ l2) =
        emitItem m g.text it ++ emitItems m rest ++ emitItems m l2
      rw [ih, List.append_assoc]

theorem emitItems_drop_middle (m : List (Option String × Option String))
    (pre post : List XItem) (it : XItem) (h : it.find "guid" = none) :
    emitItems m (pre ++ it :: post) = emitItems m (pre ++ post) := by
  rw [emitItems_append, emitItems_append]
  congr 1
  rw [emitItems, h]

theorem emitItems_structure (m : List (Option String × Option String)) :
    ∀ items : List XItem,
      emitItems m items =
        (items.filter (fun it => (it.find "guid").isSome)).flatMap
          (fun it =>
            match it.find "guid" with
            | some g => emitItem m g.text it
            | none => []) := by
  intro items
  induction items with
  | nil => rfl
  | cons it rest ih =>
    rw [emitItems, List.filter_cons]
    cases hg : it.find "guid" with
    | none =>
      simp only [hg, Option.isSome_none, Bool.false_eq_true, if_false]
      exact ih
    | some g =>
      simp only [hg, Option.isSome_some, if_true, List.flatMap_cons]
      rw [ih]

theorem resolvePoster_cleaned (env : Env) (st : RunState) (it : XItem) (d : Option String) :
    ((resolvePoster env st it d).1).cleaned = st.cleaned := by
  rw [resolvePoster_fst]
  exact (resolveState_frame st it).2.2.2

theorem materialize_downloads_of_missing (env : Env) (st : RunState) (u b : String)
    (h : b ∉ st.fulls) : (materialize env st u b).downloads = st.downloads ++ [u] := by
  unfold materialize
  rw [if_neg h]
  split
  · split
    · rfl
    · split <;> rfl
  · rfl

/-- C8: sanitize("Spider-Man: Into the Spider-Verse½") equals
"spider-man-into-the-spider-verse" — the colon is dropped by the
alphanumeric-or-hyphen filter, the `½` glyph is stripped, and the result
has single hyphens between words and no edge hyphen. -/
theorem c8_sanitize_spiderverse :
    sanitize_filename "Spider-Man: Into the Spider-Verse½" =
      "spider-man-into-the-spider-verse" := by decide

/-- C3 counterexample: the filename sanitizer is NOT idempotent as claimed.
On "a ½ b" it returns "a--b" — the `½` survives the `isalnum()` filter
(Python counts it as numeric), so its removal, being the LAST step, can
create a double hyphen after the collapsing loop has already run — while a
second application returns "a-b". -/
theorem c3_sanitize_not_idempotent :
    sanitizeL (sanitizeL "a ½ b".data) ≠ sanitizeL "a ½ b".data := by decide

/-- C3 amended: the sanitizer is idempotent on every string that does not
contain the `½` glyph; placing the glyph removal last breaks idempotence
(and placement-invariance) only for inputs containing `½`. -/
theorem c3_sanitize_idempotent_no_half {l : List Char} (h : '½' ∉ l) :
    sanitizeL (sanitizeL l) = sanitizeL l :=
  sanitizeL_fixed (sanitizeL_isCleanName h)

theorem c3_sanitize_idempotent_no_half_witness :
    sanitizeL (sanitizeL "The Matrix (1999)".data) = sanitizeL "The Matrix (1999)".data :=
  c3_sanitize_idempotent_no_half (by decide)

/-- C5 counterexample: it is NOT the case that every non-list URL
containing "-0-230-0-345-crop" is mapped to one containing
"-0-2000-0-3000-crop".  On "a-0-0-230-0-345-crop" the first regex's
leftmost match starts earlier (at "-0-0-230"), consumes the occurrence,
and the final result "a-0-2000-2000-0-2000-crop" lacks the crop target. -/
theorem c5_crop_upgrade_counterexample :
    listContains "-0-230-0-345-crop".data "a-0-0-230-0-345-crop".data = true ∧
    listContains listMarker "a-0-0-230-0-345-crop".data = false ∧
    upgradePosterUrl "a-0-0-230-0-345-crop".data = "a-0-2000-2000-0-2000-crop".data ∧
    listContains "-0-2000-0-3000-crop".data
      (upgradePosterUrl "a-0-0-230-0-345-crop".data) = false := by
  exact ⟨by decide, by decide, by decide, by decide⟩

/-- C5 amended: every non-list URL containing "-0-230-" maps to one
containing "-0-2000-" (the two substitutions are applied in the stated
order, and each replacement itself contains "-0-2000-"); the crop upgrade
"-0-230-0-345-crop" to "-0-2000-0-3000-crop" holds for URLs where the
specific pattern's leftmost match is the occurrence itself, as on the
canonical poster URL, but not for every URL containing that substring
(see the counterexample). -/
theorem c5_resolution_upgrade :
    (∀ u : List Char, listContains listMarker u = false →
      listContains "-0-230-".data u = true →
      listContains "-0-2000-".data (upgradePosterUrl u) = true) ∧
    upgradePosterUrl "https://a.ltrbxd.com/resized/poster-0-230-0-345-crop.jpg".data =
      "https://a.ltrbxd.com/resized/poster-0-2000-0-3000-crop.jpg".data := by
  constructor
  · intro u h1 h2
    exact upgradePosterUrl_has_2000 h1 h2
  · decide

theorem c5_resolution_upgrade_witness :
    listContains "-0-2000-".data (upgradePosterUrl "x-0-230-y".data) = true :=
  c5_resolution_upgrade.1 "x-0-230-y".data (by decide) (by decide)

/-- C4 counterexample: on internal failure the cleaner does NOT return the
original input unchanged — the `except` handler returns the local
`description` variable, which has already been CDATA-unwrapped: with a
parser oracle that always fails, cleaning "<![CDATA[<p>x</p>]]>" yields
"<p>x</p>", not the original string. -/
theorem c4_clean_failure_not_original :
    clean_description id (fun _ => none) "<![CDATA[<p>x</p>]]>" = "<p>x</p>" ∧
    clean_description id (fun _ => none) "<![CDATA[<p>x</p>]]>" ≠ "<![CDATA[<p>x</p>]]>" := by
  exact ⟨by decide, by decide⟩

/-- C4 amended: the cleaner is total by construction and fail-open, but on
internal failure it returns the PREPROCESSED description (CDATA-unwrapped
and entity-unescaped), which coincides with the original input exactly
when the input was not CDATA-wrapped and contained no `&lt;`. -/
theorem c4_clean_fail_open (u : String → String) (p : String → Option String) (s : String)
    (hp : p (preClean u s) = none) :
    clean_description u p s = preClean u s ∧
    ((strStartsWith cdataOpen s && strEndsWith cdataClose s) = false →
      strContains "&lt;" s = false → clean_description u p s = s) := by
  have h1 : clean_description u p s = preClean u s := by
    unfold clean_description
    simp only [hp]
  refine ⟨h1, fun hw hl => ?_⟩
  rw [h1]
  unfold preClean
  rw [hw]
  simp only [Bool.false_eq_true, if_false]
  rw [hl]
  simp

theorem c4_clean_fail_open_witness :
    clean_description id (fun _ => none) "plain text" = "plain text" :=
  (c4_clean_fail_open id (fun _ => none) "plain text" rfl).2 (by decide) (by decide)

/-- C2: the image materializer's cache dispatch is idempotent — a first
call from an uncached state with a successful download and thumbnail does
exactly one network GET, and a second call with the same arguments is a
strict no-op; and from any state where the full image exists but the
thumbnail does not, the call issues no network GET, leaves the full store
and the downloads log untouched, and only (attempts to) regenerate the
thumbnail. -/
theorem c2_materialize_idempotent :
    (∀ (env : Env) (st : RunState) (u b : String),
      b ∉ st.fulls → b ∉ st.thumbs → env.downloadOk u = true → env.thumbOk b = true →
      (materialize env st u b).downloads = st.downloads ++ [u] ∧
      materialize env (materialize env st u b) u b = materialize env st u b) ∧
    (∀ (env : Env) (st : RunState) (u b : String),
      b ∈ st.fulls → b ∉ st.thumbs →
      materialize env st u b =
        (if env.thumbOk b then { st with thumbs := b :: st.thumbs } else st)) := by
  constructor
  · intro env st u b hf ht hd hok
    have hst : materialize env st u b =
        { st with downloads := st.downloads ++ [u], fulls := b :: st.fulls,
                  thumbs := b :: st.thumbs } := by
      unfold materialize
      rw [if_neg hf, if_pos hd, if_neg ht, if_pos hok]
    refine ⟨by rw [hst], ?_⟩
    rw [hst]
    unfold materialize
    rw [if_pos (List.mem_cons_self b st.fulls)]
    rw [if_pos (List.mem_cons_self b st.thumbs)]
  · intro env st u b hf ht
    unfold materialize
    rw [if_pos hf, if_neg ht]

theorem c2_materialize_idempotent_witness :
    (materialize wEnv emptyState "https://x/p.jpg" "p").downloads = ["https://x/p.jpg"] ∧
    materialize wEnv (materialize wEnv emptyState "https://x/p.jpg" "p") "https://x/p.jpg" "p" =
      materialize wEnv emptyState "https://x/p.jpg" "p" := by
  have h := c2_materialize_idempotent.1 wEnv emptyState "https://x/p.jpg" "p"
    (by simp [emptyState]) (by simp [emptyState]) rfl rfl
  exact ⟨h.1, h.2⟩

/-- C7: every exception modelled in the per-item try block escapes to the
handler with the cleaned-description dictionary exactly as it was when the
item started (no raise site sits between a dictionary write and the
handler), and the handler resumes the loop with the next item. -/
theorem c7_per_item_exception_contained (env : Env) (st : RunState) (it : XItem) :
    (∀ s, processItemCore env st it = Except.error s → s.cleaned = st.cleaned) ∧
    (∀ rest : List XItem,
      processItems env st (it :: rest) = processItems env (processItem env st it) rest) := by
  refine ⟨?_, fun rest => rfl⟩
  intro s hs
  unfold processItemCore at hs
  cases hd : it.find "description" with
  | none =>
    simp only [hd] at hs
    injection hs with h
    rw [← h]
  | some dElem =>
    simp only [hd] at hs
    cases ht : it.find "title" with
    | none =>
      simp only [ht] at hs
      injection hs with h
      rw [← h]
    | some tElem =>
      simp only [ht] at hs
      cases hres : resolvePoster env st it dElem.text with
      | mk st1 r =>
        have hst1 : st1.cleaned = st.cleaned := by
          have h2 := resolvePoster_cleaned env st it dElem.text
          rw [hres] at h2
          exact h2
        cases r with
        | error e =>
          simp only [hres] at hs
          injection hs with h
          rw [← h]
          exact hst1
        | ok imgUrl =>
          simp only [hres] at hs
          cases imgUrl with
          | some u =>
            cases hep : strContains "empty-poster" u with
            | true =>
              simp only [hep] at hs
              rw [if_pos trivial] at hs
              cases hg : it.find "guid" with
              | none =>
                simp only [hg] at hs
                injection hs with h
                rw [← h]
                exact hst1
              | some g =>
                simp only [hg] at hs
                exact Except.noConfusion hs
            | false =>
              simp only [hep] at hs
              rw [if_neg (fun hcon => Bool.false_ne_true hcon)] at hs
              cases htt : tElem.text with
              | none =>
                simp only [htt] at hs
                injection hs with h
                rw [← h]
                exact hst1
              | some t =>
                simp only [htt] at hs
                unfold finishClean at hs
                cases hg : it.find "guid" with
                | none =>
                  simp only [hg] at hs
                  injection hs with h
                  rw [← h, materialize_cleaned]
                  exact hst1
                | some g =>
                  simp only [hg] at hs
                  exact Except.noConfusion hs
          | none =>
            unfold finishClean at hs
            cases hg : it.find "guid" with
            | none =>
              simp only [hg] at hs
              injection hs with h
              rw [← h]
              exact hst1
            | some g =>
              simp only [hg] at hs
              exact Except.noConfusion hs

theorem c7_per_item_exception_contained_witness :
    processItemCore wEnv emptyState itemNoDesc = Except.error emptyState ∧
    (processItem wEnv emptyState itemNoDesc).cleaned = emptyState.cleaned := by
  have h := (c7_per_item_exception_contained wEnv emptyState itemNoDesc).1 emptyState rfl
  exact ⟨rfl, h⟩

/-- C6: when the resolved candidate URL contains the empty-poster marker,
the item performs no image I/O — full store, thumbnail store and download
log are untouched (only the scrape log may grow) — while its description
is still cleaned and stored under its guid, and the emitted item carries
that cleaned description in its CDATA line. -/
theorem c6_placeholder_no_image_effects (env : Env) (st : RunState) (it : XItem)
    (dE tE gE : XElem) (u : String)
    (hd : it.find "description" = some dE)
    (ht : it.find "title" = some tE)
    (hg : it.find "guid" = some gE)
    (h2 : (resolvePoster env st it dE.text).2 = Except.ok (some u))
    (hep : strContains "empty-poster" u = true) :
    processItem env st it =
      { resolveState st it with
          cleaned := (gE.text, cleanDescriptionOpt env.unesc env.soup dE.text) ::
            (resolveState st it).cleaned } ∧
    (processItem env st it).fulls = st.fulls ∧
    (processItem env st it).thumbs = st.thumbs ∧
    (processItem env st it).downloads = st.downloads ∧
    (processItem env st it).cleaned.lookup gE.text =
      some (cleanDescriptionOpt env.unesc env.soup dE.text) ∧
    ("      <description><![CDATA[" ++
        pyStr (cleanDescriptionOpt env.unesc env.soup dE.text) ++ "]]></description>") ∈
      emitItems (processItem env st it).cleaned [it] := by
  have hpair : resolvePoster env st it dE.text = (resolveState st it, Except.ok (some u)) := by
    rw [Prod.ext_iff]
    exact ⟨resolvePoster_fst env st it dE.text, h2⟩
  have hcore : processItemCore env st it =
      Except.ok { resolveState st it with
        cleaned := (gE.text, cleanDescriptionOpt env.unesc env.soup dE.text) ::
          (resolveState st it).cleaned } := by
    unfold processItemCore
    simp only [hd, ht, hpair, hep]
    rw [if_pos trivial]
    simp only [hg]
  have hmain : processItem env st it =
      { resolveState st it with
          cleaned := (gE.text, cleanDescriptionOpt env.unesc env.soup dE.text) ::
            (resolveState st it).cleaned } := by
    unfold processItem
    rw [hcore]
  refine ⟨hmain, ?_, ?_, ?_, ?_, ?_⟩
  · rw [hmain]
    exact (resolveState_frame st it).1
  · rw [hmain]
    exact (resolveState_frame st it).2.1
  · rw [hmain]
    exact (resolveState_frame st it).2.2.1
  · rw [hmain]
    simp [List.lookup]
  · rw [hmain]
    have hdv : descValue
        ((gE.text, cleanDescriptionOpt env.unesc env.soup dE.text) ::
          (resolveState st it).cleaned) gE.text it =
        pyStr (cleanDescriptionOpt env.unesc env.soup dE.text) := by
      unfold descValue
      simp [List.lookup]
    simp only [emitItems, hg, emitItem, List.append_nil, hdv]
    apply List.mem_cons_of_mem
    apply List.mem_append_right
    exact List.mem_cons_self _ _

theorem c6_placeholder_no_image_effects_witness :
    (processItem wEnv emptyState itemB).downloads = [] ∧
    (processItem wEnv emptyState itemB).fulls = [] ∧
    (processItem wEnv emptyState itemB).thumbs = [] ∧
    (processItem wEnv emptyState itemB).cleaned.lookup (some "g-b") =
      some (some descPlaceholder) := by
  have h := c6_placeholder_no_image_effects wEnv emptyState itemB
    { tag := "description", text := some descPlaceholder,
      ser := "<description>...</description>" }
    { tag := "title", text := some "Some Movie", ser := "<title>Some Movie</title>" }
    { tag := "guid", text := some "g-b", ser := "<guid>g-b</guid>" }
    "https://s.ltrbxd.com/static/img/empty-poster-500.png"
    rfl rfl rfl rfl (by decide)
  exact ⟨h.2.2.2.1, h.2.1, h.2.2.1, h.2.2.2.2.1⟩

/-- C9: an item with description and title but no guid child still runs
the full image step — the state change is exactly the materializer applied
to the resolution-upgraded URL and the sanitized, hyphen-rstripped base
filename, including the network download when the full image is absent —
yet the cleaned map gains no entry (the guid lookup raises afterwards) and
the item is dropped from the emitted document. -/
theorem c9_missing_guid_still_downloads (env : Env) (st : RunState) (it : XItem)
    (dE tE : XElem) (t u : String)
    (hd : it.find "description" = some dE)
    (ht : it.find "title" = some tE)
    (htt : tE.text = some t)
    (hg : it.find "guid" = none)
    (h2 : (resolvePoster env st it dE.text).2 = Except.ok (some u))
    (hep : strContains "empty-poster" u = false) :
    processItem env st it =
      materialize env (resolveState st it) (upgradePosterUrlStr u)
        (String.mk (rstripHyphens (sanitize_filename t).data)) ∧
    (processItem env st it).cleaned = st.cleaned ∧
    (String.mk (rstripHyphens (sanitize_filename t).data) ∉ st.fulls →
      (processItem env st it).downloads = st.downloads ++ [upgradePosterUrlStr u]) ∧
    (∀ (m : List (Option String × Option String)) (pre post : List XItem),
      emitItems m (pre ++ it :: post) = emitItems m (pre ++ post)) := by
  have hpair : resolvePoster env st it dE.text = (resolveState st it, Except.ok (some u)) := by
    rw [Prod.ext_iff]
    exact ⟨resolvePoster_fst env st it dE.text, h2⟩
  have hcore : processItemCore env st it =
      Except.error (materialize env (resolveState st it) (upgradePosterUrlStr u)
        (String.mk (rstripHyphens (sanitize_filename t).data))) := by
    unfold processItemCore
    simp only [hd, ht, hpair, hep]
    rw [if_neg (fun hcon => Bool.false_ne_true hcon)]
    simp only [htt]
    unfold finishClean
    simp only [hg]
  have hmain : processItem env st it =
      materialize env (resolveState st it) (upgradePosterUrlStr u)
        (String.mk (rstripHyphens (sanitize_filename t).data)) := by
    unfold processItem
    rw [hcore]
  refine ⟨hmain, ?_, ?_, ?_⟩
  · rw [hmain, materialize_cleaned]
    exact (resolveState_frame st it).2.2.2
  · intro hnf
    rw [hmain, materialize_downloads_of_missing env (resolveState st it) _ _
        (by rw [(resolveState_frame st it).1]; exact hnf),
      (resolveState_frame st it).2.2.1]
  · intro m pre post
    exact emitItems_drop_middle m pre post it hg

theorem c9_missing_guid_still_downloads_witness :
    (processItem wEnv emptyState itemNoGuid).downloads =
      ["https://a.ltrbxd.com/resized/poster-0-2000-0-3000-crop.jpg"] ∧
    (processItem wEnv emptyState itemNoGuid).cleaned = [] := by
  have h := c9_missing_guid_still_downloads wEnv emptyState itemNoGuid
    { tag := "description", text := some descPoster, ser := "<description>...</description>" }
    { tag := "title", text := some "Dune", ser := "<title>Dune</title>" }
    "Dune" "https://a.ltrbxd.com/resized/poster-0-230-0-345-crop.jpg"
    rfl rfl rfl rfl rfl (by decide)
  refine ⟨?_, h.2.1⟩
  have h3 := h.2.2.1 (by decide)
  rw [h3]
  decide

/-- C10: an item with a guid but no description child raises before any
image or dictionary work, so the run state is returned unchanged and no
cleaned entry is recorded; the output loop still emits the item, and when
its guid is not a key of the dictionary the fallback serializes the absent
description element as an empty CDATA section. -/
theorem c10_missing_description_empty_cdata (env : Env) (st : RunState) (it : XItem)
    (gE : XElem)
    (hd : it.find "description" = none)
    (hg : it.find "guid" = some gE) :
    processItem env st it = st ∧
    (∀ m : List (Option String × Option String), m.lookup gE.text = none →
      "      <description><![CDATA[]]></description>" ∈ emitItems m [it]) := by
  constructor
  · unfold processItem processItemCore
    simp only [hd]
  · intro m hm
    have hdv : descValue m gE.text it = "" := by
      unfold descValue
      rw [hm, hd]
    simp only [emitItems, hg, emitItem, List.append_nil, hdv]
    apply List.mem_cons_of_mem
    apply List.mem_append_right
    exact List.mem_cons_self _ _

theorem c10_missing_description_empty_cdata_witness :
    processItem wEnv emptyState itemNoDesc = emptyState ∧
    "      <description><![CDATA[]]></description>" ∈ emitItems [] [itemNoDesc] := by
  have h := c10_missing_description_empty_cdata wEnv emptyState itemNoDesc
    { tag := "guid", text := some "g-c", ser := "<guid>g-c</guid>" } rfl rfl
  exact ⟨h.1, h.2 [] rfl⟩

/-- C1: the reassembled item section is exactly the original items in
document order, filtered to those having a guid child, each expanded to
its block; an item lacking a guid is dropped wherever it sits; every
non-description child of a kept item is re-emitted byte-for-byte (its
opaque `ET.tostring` serialization, indented) in the section; and the
document is header, verbatim channel metadata (item children excluded),
item section, footer. -/
theorem c1_reassembly (m : List (Option String × Option String)) :
    (∀ items : List XItem,
      emitItems m items =
        (items.filter (fun it => (it.find "guid").isSome)).flatMap
          (fun it =>
            match it.find "guid" with
            | some g => emitItem m g.text it
            | none => [])) ∧
    (∀ (pre post : List XItem) (it : XItem), it.find "guid" = none →
      emitItems m (pre ++ it :: post) = emitItems m (pre ++ post)) ∧
    (∀ (items : List XItem) (it : XItem) (g : XElem) (c : XElem),
      it ∈ items → it.find "guid" = some g → c ∈ it.children →
      (c.tag == "description") = false →
      ("      " ++ c.ser) ∈ emitItems m items) ∧
    (∀ feed : Feed,
      emitDoc feed m =
        docHeader ++
          (feed.channelMeta.filter (fun c => !(c.tag == "item"))).map
            (fun c => "    " ++ c.ser) ++
          emitItems m feed.items ++ docFooter) := by
  refine ⟨emitItems_structure m,
    (fun pre post it h => emitItems_drop_middle m pre post it h), ?_, fun feed => rfl⟩
  intro items it g c hmem hg hc hcd
  rw [emitItems_structure m items]
  apply List.mem_flatMap.mpr
  refine ⟨it, List.mem_filter.mpr ⟨hmem, by rw [hg]; rfl⟩, ?_⟩
  simp only [hg]
  unfold emitItem
  apply List.mem_cons_of_mem
  apply List.mem_append_left
  exact List.mem_map.mpr ⟨c, List.mem_filter.mpr ⟨hc, by rw [hcd]; rfl⟩, rfl⟩

theorem c1_reassembly_witness :
    emitItems [] ([itemB] ++ itemNoGuid :: []) = emitItems [] ([itemB] ++ []) :=
  (c1_reassembly []).2.1 [itemB] [] itemNoGuid rfl
